import Mathlib

/-!
# threadPool (thread_pool.h)

A shallow embedding of the member functions that `thread_pool.h` defines inline:
the constructor, the destructor, `terminate_on_flag`, `jobs_in_queue` and
`threads_busy`.  The bodies of `add_job`, `is_queue_empty`, `pool_busy` and
`threadLoop` are only declared in the header; `add_job` and the worker loop are
modelled from the specification, in a separate section, for the properties of
the busy counter, which they alone write after construction.

Each member function is a function on the record of the data members.  Every
primitive action of a body (taking or releasing `m_`, a store to `terminate_`,
`cv_.notify_all()`, a `join`, ...) also appends one `Event` to the `log` of the
record, in program order, so that ordering properties can be stated.

Machine integers: `size_t` is 64 bits wide, `int` and `uint32_t` 32 bits.
What the host grants (storage for the vector, the start of a thread) is a
parameter of the constructor, which has no handling for a refusal.
-/

set_option linter.dupNamespace false

namespace ThreadPool

/-- A job is opaque to the pool; it is identified by a number. -/
abbrev Job := Nat

/-- Number of values of a `uint32_t` (and of an `int`). -/
def UINT32_MOD : Nat := 4294967296

/-- Largest value of an `int`. -/
def INT_MAX : Nat := 2147483647

/-- Conversion of an unsigned `size_t` value to `int`: reduction modulo `2^32`,
read as a two's complement number. -/
def to_int (n : Nat) : Int :=
  if n % UINT32_MOD ≤ INT_MAX then ((n % UINT32_MOD : Nat) : Int)
  else ((n % UINT32_MOD : Nat) : Int) - (UINT32_MOD : Int)

/-- A `std::thread` object.  `idle` is a handle with no thread of execution
(default constructed, or already joined); `worker` is a handle to a thread
that was started on `threadLoop`. -/
inductive Thread
  | idle
  | worker
  deriving DecidableEq, Repr

/-- `std::thread::joinable`. -/
def Thread.joinable : Thread → Bool
  | .idle => false
  | .worker => true

/-- The primitive actions of the member functions, as recorded in the log. -/
inductive Event
  | lock
  | unlock
  | store_terminate (v : Bool)
  | notify_all
  | join (i : Nat)
  | clear_pool
  | resize_pool (n : Nat)
  | store_busy (v : Int)
  | spawn (i : Nat)
  | load_stop (v : Bool)
  | read_queue_size (n : Nat)
  | load_busy (v : Int)
  | destroy_queue
  | destroy_pool
  | push (job : Nat)
  | notify_one
  deriving DecidableEq, Repr

/-- The ways in which a member function can fail to return normally. -/
inductive Fault
  /-- `m_` is locked again by the thread that already owns it. -/
  | deadlock
  /-- `join` on a thread that is not joinable throws `std::system_error`. -/
  | system_error
  /-- `pool_.at(i)` with `i` outside the vector. -/
  | out_of_range
  /-- `std::terminate`: a joinable `std::thread` is assigned to or destroyed. -/
  | terminate
  /-- The loop has not finished within the given number of iterations. -/
  | out_of_fuel
  /-- `pool_.resize` throws (`std::length_error` or `std::bad_alloc`). -/
  | alloc_failed
  deriving DecidableEq, Repr

/-- What the host grants: `storage n` tells whether a vector of `n` thread
objects can be allocated, `threads k` whether one more thread can be started
while `k` threads of the pool are running. -/
structure Host where
  storage : Nat → Bool
  threads : Nat → Bool

end ThreadPool

/-- The data members of `class threadPool`, and the log of the actions
performed on them.  `m_` is `true` while the calling thread owns the mutex. -/
structure threadPool where
  terminate_ : Bool
  m_ : Bool
  pool_ : List ThreadPool.Thread
  queue_ : List ThreadPool.Job
  cnt_busy_ : Int
  log : List ThreadPool.Event
  deriving DecidableEq, Repr

namespace ThreadPool

/-- Result of a member function: the state it returns in, or the fault together
with the state at the fault. -/
abbrev Result := Except (Fault × threadPool) threadPool

/-- The state a result ends in, whether the function returned or not. -/
def Result.state : Result → threadPool
  | .ok s => s
  | .error (_, s) => s

/-- `std::unique_lock<std::mutex> l(m_)`. -/
def lock (s : threadPool) : Result :=
  if s.m_ then .error (.deadlock, s)
  else .ok { s with m_ := true, log := s.log ++ [.lock] }

/-- End of the scope of a `std::unique_lock`. -/
def unlock (s : threadPool) : threadPool :=
  { s with m_ := false, log := s.log ++ [.unlock] }

/-- `terminate_ = true;` -/
def store_terminate (v : Bool) (s : threadPool) : threadPool :=
  { s with terminate_ := v, log := s.log ++ [.store_terminate v] }

/-- `cv_.notify_all();` -/
def notify_all (s : threadPool) : threadPool :=
  { s with log := s.log ++ [.notify_all] }

/-- The data members before the body of the constructor runs: the default
member initialisers (`terminate_ = false`), an empty vector and queue.  The
counter has no initialiser; it is written before it is ever read. -/
def members_init : threadPool :=
  { terminate_ := false, m_ := false, pool_ := [], queue_ := [], cnt_busy_ := 0, log := [] }

/-- Lines 20-21: `pool_.resize(num_threads); cnt_busy_ = (int)num_threads;` -/
def ctor_prologue (num_threads : Nat) : threadPool :=
  { members_init with
    pool_ := List.replicate num_threads Thread.idle
    cnt_busy_ := to_int num_threads
    log := [.resize_pool num_threads, .store_busy (to_int num_threads)] }

/-- Lines 22-25: `for (uint32_t i = 0; i < num_threads; i++) pool_.at(i) =
std::thread(&threadPool::threadLoop, this);`.  The counter `i` is a `uint32_t`
and wraps.  In each pass the new thread is created first: when the host refuses
it the `std::thread` constructor throws `std::system_error`, the exception
leaves the constructor, and the vector is destroyed, which calls
`std::terminate` if it holds a joinable thread.  Then comes `pool_.at(i)`, then
the move assignment, which calls `std::terminate` on a joinable target. -/
def ctor_loop (host : Host) (num_threads : Nat) : Nat → Nat → threadPool → Result
  | 0, _, s => .error (.out_of_fuel, s)
  | fuel + 1, i, s =>
    if i < num_threads then
      if host.threads (s.pool_.countP Thread.joinable) then
        match s.pool_[i]? with
        | none => .error (.out_of_range, s)
        | some t =>
          if t.joinable then .error (.terminate, s)
          else
            ctor_loop host num_threads fuel ((i + 1) % UINT32_MOD)
              { s with pool_ := s.pool_.set i Thread.worker, log := s.log ++ [.spawn i] }
      else if s.pool_.any Thread.joinable then .error (.terminate, s)
      else .error (.system_error, s)
    else .ok s

end ThreadPool

open ThreadPool

/-- The loop `for (std::thread& active_thread : pool_) active_thread.join();`:
`todo` are the elements still to visit, `i` the position of the first. -/
def threadPool.join_all : List Thread → Nat → threadPool → Result
  | [], _, s => .ok s
  | t :: todo, i, s =>
    if t.joinable then
      threadPool.join_all todo (i + 1) { s with pool_ := s.pool_.set i Thread.idle, log := s.log ++ [.join i] }
    else .error (.system_error, s)

/-- `pool_.clear();` destroys the elements; destroying a joinable thread calls
`std::terminate`. -/
def threadPool.clear_pool (s : threadPool) : Result :=
  if s.pool_.any Thread.joinable then .error (.terminate, s)
  else .ok { s with pool_ := [], log := s.log ++ [.clear_pool] }

/-- The body of `threadPool::~threadPool()`, lines 32-44, up to its closing
brace; `threadPool.destructor_complete` below is the whole destructor call. -/
def threadPool.destructor (s : threadPool) : Result :=
  match lock s with
  | .error e => .error e
  | .ok s1 =>
    let s2 := store_terminate true s1
    let s3 := unlock s2
    let s4 := notify_all s3
    match threadPool.join_all s4.pool_ 0 s4 with
    | .error e => .error e
    | .ok s5 => threadPool.clear_pool s5

/-- What follows the body of a destructor: the data members are destroyed in
reverse order of declaration.  Destroying `queue_` destroys the jobs it holds;
destroying `pool_` destroys its elements, and destroying a joinable thread
calls `std::terminate`. -/
def threadPool.destroy_members (s : threadPool) : Result :=
  if s.pool_.any Thread.joinable then
    .error (.terminate, { s with queue_ := [], log := s.log ++ [.destroy_queue] })
  else .ok { s with queue_ := [], pool_ := [], log := s.log ++ [.destroy_queue, .destroy_pool] }

/-- The whole call of `threadPool::~threadPool()`: the body, then the
destruction of the data members. -/
def threadPool.destructor_complete (s : threadPool) : Result :=
  match threadPool.destructor s with
  | .error e => .error e
  | .ok s1 => threadPool.destroy_members s1

/-- `while (!stop.load()){}`: `stop k` is the value that the `k`-th load of the
external flag reads. -/
def threadPool.spin (stop : Nat → Bool) : Nat → Nat → threadPool → Result
  | 0, _, s => .error (.out_of_fuel, s)
  | fuel + 1, k, s =>
    if stop k then .ok { s with log := s.log ++ [.load_stop true] }
    else threadPool.spin stop fuel (k + 1) { s with log := s.log ++ [.load_stop false] }

/-- `void threadPool::terminate_on_flag(std::atomic<bool> &stop)` -/
def threadPool.terminate_on_flag (stop : Nat → Bool) (fuel : Nat) (s : threadPool) : Result :=
  match threadPool.spin stop fuel 0 s with
  | .error e => .error e
  | .ok s1 =>
    let s2 := store_terminate true s1
    match lock s2 with
    | .error e => .error e
    | .ok s3 => .ok (unlock (notify_all s3))

/-- `int threadPool::jobs_in_queue()` -/
def threadPool.jobs_in_queue (s : threadPool) : Except (Fault × threadPool) (Int × threadPool) :=
  match lock s with
  | .error e => .error e
  | .ok s1 =>
    let n := s1.queue_.length
    .ok (to_int n, unlock { s1 with log := s1.log ++ [.read_queue_size n] })

/-- `int threadPool::threads_busy()` -/
def threadPool.threads_busy (s : threadPool) : Int × threadPool :=
  (s.cnt_busy_, { s with log := s.log ++ [.load_busy s.cnt_busy_] })

/-- Modelled from the spec: `add_job`, whose body is missing (section 4.3:
"acquire the shared lock, push the job to the back of the queue, release the
lock, notify one waiting worker"). -/
def threadPool.add_job (job : Job) (s : threadPool) : Result :=
  match lock s with
  | .error e => .error e
  | .ok s1 =>
    let s2 := unlock { s1 with queue_ := s1.queue_ ++ [job], log := s1.log ++ [.push job] }
    .ok { s2 with log := s2.log ++ [.notify_one] }

/-- `threadPool::threadPool(size_t num_threads)`; `num_threads` is a `size_t`,
a number below `2^64`, and `fuel` bounds the passes of the loop.  When the host
has no storage for the vector, `resize` throws before anything else is done.
(Placed after the other member functions because its name shadows the record
inside their namespace.) -/
def threadPool.threadPool (host : ThreadPool.Host) (num_threads : Nat) (fuel : Nat) :
    ThreadPool.Result :=
  if host.storage num_threads then
    ThreadPool.ctor_loop host num_threads fuel 0 (ThreadPool.ctor_prologue num_threads)
  else .error (ThreadPool.Fault.alloc_failed, ThreadPool.members_init)

namespace ThreadPool

/-- The operations on a constructed pool whose bodies are in the header. -/
inductive Op
  | terminate_on_flag (stop : Nat → Bool) (fuel : Nat)
  | destructor
  | jobs_in_queue
  | threads_busy

/-- One operation. -/
def step : Op → threadPool → Result
  | .terminate_on_flag stop fuel, s => threadPool.terminate_on_flag stop fuel s
  | .destructor, s => threadPool.destructor s
  | .jobs_in_queue, s =>
    match threadPool.jobs_in_queue s with
    | .error e => .error e
    | .ok (_, s1) => .ok s1
  | .threads_busy, s => .ok (threadPool.threads_busy s).2

/-- A sequence of operations, stopping at the first one that does not return. -/
def run : List Op → threadPool → Result
  | [], s => .ok s
  | op :: ops, s =>
    match step op s with
    | .error e => .error e
    | .ok s1 => run ops s1

/-- Whether every store to `terminate_` in a log happens between a `lock` and
the next `unlock`; `held` tells whether the mutex is owned at the start. -/
def stores_locked : Bool → List Event → Bool
  | _, [] => true
  | _, .lock :: es => stores_locked true es
  | _, .unlock :: es => stores_locked false es
  | held, .store_terminate _ :: es => held && stores_locked held es
  | held, _ :: es => stores_locked held es

/-- A pool between two calls: the caller does not own `m_` and every element of
`pool_` is a running worker. -/
def ready (s : threadPool) : Prop :=
  s.m_ = false ∧ ∀ t ∈ s.pool_, t.joinable = true

/-- Every data member of `s2` equals that of `s1` (the log apart). -/
def same_members (s1 s2 : threadPool) : Prop :=
  s2.terminate_ = s1.terminate_ ∧ s2.m_ = s1.m_ ∧ s2.pool_ = s1.pool_ ∧
    s2.queue_ = s1.queue_ ∧ s2.cnt_busy_ = s1.cnt_busy_

/-! ## The worker loop and job submission

`threadLoop` and `add_job` are declared in the header, but their bodies are not
in it.  After the constructor they are the only writers of `cnt_busy_` and of
`queue_`.  This section models them from sections 4.2 and 4.3 of the
specification.  The steps of the workers interleave with the calls of the
owner at the granularity of whole calls.  They are not tied to the handles in
`pool_`: a worker may still step after its handle was joined, so the sequences
below include every sequence of the program, and more. -/

/-- Result of `++` or `--` on a `std::atomic<int>`: the value wraps around. -/
def wrap_int (z : Int) : Int := (z + 2147483648) % 4294967296 - 2147483648

/-- Modelled from the spec: the states of a worker (section 4.2: "Waiting,
Executing, Exited"), the body of `threadLoop` being missing.  `started` is a
worker that was created and has not begun to wait for the first time. -/
inductive Phase
  | started
  | waiting
  | executing
  | exited
  deriving DecidableEq, Repr

/-- Modelled from the spec: the data members together with the state of each
worker thread, which is where the missing `threadLoop` stands. -/
structure Running where
  pool : threadPool
  workers : List Phase
  deriving DecidableEq, Repr

/-- Modelled from the spec: the pool as the constructor returns it, every
worker just created (section 4.1: "workers are counted busy before they have
run a single iteration"); `threadLoop` is missing. -/
def Running.fresh (s : threadPool) : Running :=
  { pool := s, workers := List.replicate s.pool_.length Phase.started }

/-- Modelled from the spec: a step of the missing `threadLoop` (section 4.2:
"the counter must be decremented when a worker begins waiting (becomes
idle)"): worker `i`, just started or back from its job, begins waiting. -/
def begin_wait (i : Nat) (r : Running) : Option Running :=
  match r.workers[i]? with
  | some Phase.started | some Phase.executing =>
    some { pool := { r.pool with cnt_busy_ := wrap_int (r.pool.cnt_busy_ - 1) }
           workers := r.workers.set i Phase.waiting }
  | _ => none

/-- Modelled from the spec: a step of the missing `threadLoop` (section 4.2:
"Waiting → Executing: triggered when, under the shared lock, the queue is
non-empty; the worker pops the front job", and the counter is "incremented when
it begins executing a job"). -/
def begin_job (i : Nat) (r : Running) : Option Running :=
  match r.workers[i]?, r.pool.queue_, r.pool.m_ with
  | some Phase.waiting, _ :: rest, false =>
    some { pool := { r.pool with queue_ := rest, cnt_busy_ := wrap_int (r.pool.cnt_busy_ + 1) }
           workers := r.workers.set i Phase.executing }
  | _, _, _ => none

/-- Modelled from the spec: a step of the missing `threadLoop` (section 4.2:
"Waiting → Exited (terminal): triggered when, under the shared lock, the
termination flag is true AND the queue is empty", and "termination plus a
non-empty queue still permits exit"): a waiting worker exits once the flag is
set. -/
def worker_exit (i : Nat) (r : Running) : Option Running :=
  match r.workers[i]?, r.pool.terminate_, r.pool.m_ with
  | some Phase.waiting, true, false => some { r with workers := r.workers.set i Phase.exited }
  | _, _, _ => none

/-- Modelled from the spec: what can happen to a constructed pool (section 5:
the owner's calls and the workers run as pre-emptive threads), the body of
`threadLoop` being missing: a call by the owner of an operation of the header
or of `add_job`, or a step of a worker. -/
inductive Action
  | call (op : Op)
  | add_job (job : Job)
  | begin_wait (i : Nat)
  | begin_job (i : Nat)
  | worker_exit (i : Nat)

/-- Modelled from the spec: one action on the pool and its workers, the body of
`threadLoop` being missing; `none` when the call does not return or the step
is not enabled. -/
def act : Action → Running → Option Running
  | .call op, r =>
    match step op r.pool with
    | .error _ => none
    | .ok p => some { r with pool := p }
  | .add_job job, r =>
    match threadPool.add_job job r.pool with
    | .error _ => none
    | .ok p => some { r with pool := p }
  | .begin_wait i, r => begin_wait i r
  | .begin_job i, r => begin_job i r
  | .worker_exit i, r => worker_exit i r

/-- Modelled from the spec: a sequence of actions, an interleaving of the
owner's calls with the steps of the missing `threadLoop`. -/
def perform : List Action → Running → Option Running
  | [], r => some r
  | a :: rest, r =>
    match act a r with
    | none => none
    | some r1 => perform rest r1

/-- Modelled from the spec: the number of workers that are inside the call of a
job (section 4.2, state Executing of the missing `threadLoop`). -/
def executing (r : Running) : Nat := r.workers.countP (fun p => p = Phase.executing)

/-- Modelled from the spec: the number of workers of the missing `threadLoop`
that have not begun to wait for the first time. -/
def starting (r : Running) : Nat := r.workers.countP (fun p => p = Phase.started)

/-- The relation between the counter and the workers of a pool of `n` threads:
the counter holds, converted to `int`, the number of workers that are inside a
job or have not begun to wait for the first time. -/
def Counted (n : Nat) (r : Running) : Prop :=
  r.workers.length = n ∧ r.pool.cnt_busy_ = to_int (starting r + executing r)

/-! ## States used in the statements -/

/-- The state of the constructor after `j` passes of its loop. -/
def ctor_state (n j : Nat) : threadPool :=
  { ctor_prologue n with
    pool_ := List.replicate j Thread.worker ++ List.replicate (n - j) Thread.idle
    log := (ctor_prologue n).log ++ (List.range j).map Event.spawn }

/-- The state in which the destructor returns. -/
def destroyed (s : threadPool) : threadPool :=
  { terminate_ := true, m_ := false, pool_ := [], queue_ := s.queue_, cnt_busy_ := s.cnt_busy_,
    log := s.log ++ [Event.lock, Event.store_terminate true, Event.unlock, Event.notify_all] ++
      (List.range s.pool_.length).map Event.join ++ [Event.clear_pool] }

/-- When the external flag first reads `true` at its `k`-th load, the call
returns in this state. -/
def flagged (k : Nat) (s : threadPool) : threadPool :=
  { s with
    terminate_ := true
    log := s.log ++ List.replicate k (Event.load_stop false) ++
      [Event.load_stop true, Event.store_terminate true, Event.lock, Event.notify_all,
        Event.unlock] }

/-- The relation between a state and a later one that every operation keeps:
a set flag stays set, the counter and the queue are untouched, no thread
appears in the vector, and `false` is never stored to the flag. -/
structure Frame (s r : threadPool) : Prop where
  flag : s.terminate_ = true → r.terminate_ = true
  busy : r.cnt_busy_ = s.cnt_busy_
  queue : r.queue_ = s.queue_
  pool : ∀ t ∈ r.pool_, t ∈ s.pool_ ∨ t = Thread.idle
  log : ∃ l, r.log = s.log ++ l ∧ Event.store_terminate false ∉ l

/-- The state after the signal step of the destructor (lines 34-39). -/
def signalled (s : threadPool) : threadPool :=
  { s with
    terminate_ := true
    m_ := false
    log := s.log ++ [Event.lock, Event.store_terminate true, Event.unlock, Event.notify_all] }

/-- The pool that `threadPool(2)` returns. -/
def sample_fresh : threadPool :=
  { terminate_ := false, m_ := false, pool_ := [Thread.worker, Thread.worker],
    queue_ := [], cnt_busy_ := 2,
    log := [Event.resize_pool 2, Event.store_busy 2, Event.spawn 0, Event.spawn 1] }

/-- A pool of two workers with two jobs in its queue. -/
def sample_queued : threadPool := { sample_fresh with queue_ := [7, 8] }

/-- A pool without workers, as `threadPool(0)` returns it, holding one job. -/
def sample_unserved : threadPool :=
  { terminate_ := false, m_ := false, pool_ := [], queue_ := [7], cnt_busy_ := 0,
    log := [Event.resize_pool 0, Event.store_busy 0] }

/-- A host that grants everything it is asked for. -/
def host_ample : Host := { storage := fun _ => true, threads := fun _ => true }

/-- A host that grants storage and keeps at most `limit` threads running. -/
def host_limit (limit : Nat) : Host :=
  { storage := fun _ => true, threads := fun k => decide (k < limit) }

/-- Two workers begin waiting, two jobs are submitted, both workers take one,
the owner reads the counter, one worker finishes and waits, the owner raises
the flag, the waiting worker exits. -/
def sample_actions : List Action :=
  [Action.begin_wait 0, Action.begin_wait 1, Action.add_job 7, Action.add_job 8,
    Action.begin_job 1, Action.begin_job 0, Action.call Op.threads_busy, Action.begin_wait 1,
    Action.call (Op.terminate_on_flag (fun _ => true) 1), Action.worker_exit 1]

/-- The state that `sample_actions` lead to from the pool of `threadPool(2)`. -/
def sample_reached : Running :=
  { pool :=
      { terminate_ := true, m_ := false, pool_ := [Thread.worker, Thread.worker], queue_ := [],
        cnt_busy_ := 1,
        log := [Event.resize_pool 2, Event.store_busy 2, Event.spawn 0, Event.spawn 1,
          Event.lock, Event.push 7, Event.unlock, Event.notify_one,
          Event.lock, Event.push 8, Event.unlock, Event.notify_one,
          Event.load_busy 2,
          Event.load_stop true, Event.store_terminate true, Event.lock, Event.notify_all,
          Event.unlock] }
    workers := [Phase.executing, Phase.exited] }

/-- An external flag that reads `false` twice and `true` from then on. -/
def sample_stop (k : Nat) : Bool := decide (2 ≤ k)

/-- A pool without workers whose queue holds `2^31` jobs. -/
def sample_overfull : threadPool :=
  { sample_unserved with queue_ := List.replicate 2147483648 7 }

/-- The log entries that were added between a state and a later one. -/
def new_events (s r : threadPool) : List Event := r.log.drop s.log.length

end ThreadPool

namespace ThreadPool

/-! ## The constructor -/

theorem ctor_state_zero (n : Nat) : ctor_state n 0 = ctor_prologue n := by
  simp [ctor_state, ctor_prologue]

theorem ctor_state_succ (n j : Nat) (hj : j < n) :
    { ctor_state n j with
      pool_ := (ctor_state n j).pool_.set j Thread.worker
      log := (ctor_state n j).log ++ [Event.spawn j] } = ctor_state n (j + 1) := by
  obtain ⟨d, rfl⟩ : ∃ d, n = j + (d + 1) := ⟨n - j - 1, by omega⟩
  have h1 : j + (d + 1) - j = d + 1 := by omega
  have h2 : j + (d + 1) - (j + 1) = d := by omega
  simp only [ctor_state, h1, h2]
  congr 1
  · rw [List.set_append_right _ _ (by simp)]
    simp only [List.length_replicate, Nat.sub_self, List.replicate_succ, List.set_cons_zero]
    rw [← List.replicate_succ, List.replicate_succ', List.append_assoc]
    rfl
  · simp [List.range_succ]

theorem ctor_state_get (n j : Nat) (hj : j < n) :
    (ctor_state n j).pool_[j]? = some Thread.idle := by
  simp only [ctor_state]
  rw [List.getElem?_append_right (by simp)]
  simp only [List.length_replicate, Nat.sub_self]
  rw [List.getElem?_replicate]
  simp
  omega

theorem ctor_state_first (n j : Nat) (hj : 0 < j) :
    (ctor_state n j).pool_[0]? = some Thread.worker := by
  simp only [ctor_state]
  rw [List.getElem?_append_left (by simpa using hj), List.getElem?_replicate]
  simp [hj]

/-- After `j` passes `j` threads of the pool are running. -/
theorem ctor_state_live (n j : Nat) :
    (ctor_state n j).pool_.countP Thread.joinable = j := by
  simp only [ctor_state, List.countP_append, List.countP_replicate, Thread.joinable]
  simp

theorem ctor_state_any (n j : Nat) :
    (ctor_state n j).pool_.any Thread.joinable = decide (0 < j) := by
  rw [Bool.eq_iff_iff]
  simp only [ctor_state, List.any_eq_true, List.mem_append, decide_eq_true_eq]
  constructor
  · rintro ⟨t, ht | ht, hjn⟩
    · exact Nat.pos_of_ne_zero (fun h0 => by subst h0; simp at ht)
    · rw [List.eq_of_mem_replicate ht] at hjn
      cases hjn
  · intro hj
    exact ⟨Thread.worker, Or.inl (List.mem_replicate.mpr ⟨by omega, rfl⟩), rfl⟩

/-- A pass of the loop in which the host starts the thread. -/
theorem ctor_pass (host : Host) (n fuel j : Nat) (hj : j < n) (ht : host.threads j = true) :
    ctor_loop host n (fuel + 1) j (ctor_state n j) =
      ctor_loop host n fuel ((j + 1) % UINT32_MOD) (ctor_state n (j + 1)) := by
  rw [ctor_loop]
  simp only [hj, if_true, ctor_state_live, ht, ctor_state_get n j hj, Thread.joinable,
    Bool.false_eq_true, if_false]
  rw [ctor_state_succ n j hj]

/-- A pass of the loop in which the host refuses the thread. -/
theorem ctor_pass_refused (host : Host) (n fuel j : Nat) (hj : j < n)
    (ht : host.threads j = false) :
    ctor_loop host n (fuel + 1) j (ctor_state n j) =
      .error (if j = 0 then Fault.system_error else Fault.terminate, ctor_state n j) := by
  rw [ctor_loop]
  simp only [hj, if_true, ctor_state_live, ht, Bool.false_eq_true, if_false, ctor_state_any,
    decide_eq_true_eq]
  by_cases h0 : j = 0
  · simp [h0]
  · have : 0 < j := Nat.pos_of_ne_zero h0
    simp [h0, this]

/-- While the counter has not wrapped and the host starts every thread, `d`
passes of the loop take the state after `j` passes to the state after `j + d`
passes. -/
theorem ctor_loop_iter (host : Host) (n fuel : Nat) :
    ∀ d j, j + d ≤ n → j + d ≤ UINT32_MOD →
      (∀ k, j ≤ k → k < j + d → host.threads k = true) →
      ctor_loop host n (fuel + d) (j % UINT32_MOD) (ctor_state n j) =
        ctor_loop host n fuel ((j + d) % UINT32_MOD) (ctor_state n (j + d)) := by
  intro d
  induction d with
  | zero => intro j _ _ _; rfl
  | succ d ih =>
    intro j h1 h2 ht
    have hj : j % UINT32_MOD = j := Nat.mod_eq_of_lt (by omega)
    rw [hj, show fuel + (d + 1) = (fuel + d) + 1 by omega,
      ctor_pass host n (fuel + d) j (by omega) (ht j (Nat.le_refl j) (by omega)),
      ih (j + 1) (by omega) (by omega) (fun k hk1 hk2 => ht k (by omega) (by omega))]
    congr 2 <;> omega

/-- The loop returns only below `2^32` threads, when the host starts every
thread, and then in the state after `num_threads` passes. -/
theorem ctor_loop_ok_inv (host : Host) (n : Nat) :
    ∀ (fuel j : Nat) (s : threadPool), j ≤ n → j ≤ UINT32_MOD →
      ctor_loop host n fuel (j % UINT32_MOD) (ctor_state n j) = .ok s →
      n < UINT32_MOD ∧ s = ctor_state n n ∧
        (∀ k, j ≤ k → k < n → host.threads k = true) ∧ n - j < fuel := by
  have hpos : 0 < UINT32_MOD := by unfold UINT32_MOD; omega
  intro fuel
  induction fuel with
  | zero => intro j s _ _ h; simp [ctor_loop] at h
  | succ f ih =>
    intro j s hjn hjm h
    by_cases hw : j = UINT32_MOD
    · exfalso
      rw [hw, Nat.mod_self, ctor_loop] at h
      have h0 : 0 < n := by omega
      simp only [h0, if_true, ctor_state_first n UINT32_MOD hpos, Thread.joinable] at h
      split at h <;> [cases h; (split at h <;> cases h)]
    · have hlt : j < UINT32_MOD := by omega
      rw [Nat.mod_eq_of_lt hlt] at h
      by_cases hj : j < n
      · by_cases ht : host.threads j = true
        · rw [ctor_pass host n f j hj ht] at h
          obtain ⟨h1, h2, h3, h4⟩ := ih (j + 1) s (by omega) (by omega) h
          refine ⟨h1, h2, fun k hk1 hk2 => ?_, by omega⟩
          by_cases hk : k = j
          · rw [hk]; exact ht
          · exact h3 k (by omega) hk2
        · rw [ctor_pass_refused host n f j hj (by simpa using ht)] at h
          cases h
      · have hjn2 : j = n := by omega
        subst hjn2
        rw [ctor_loop, if_neg hj] at h
        exact ⟨hlt, (Except.ok.inj h).symm, fun k hk1 hk2 => by omega, by omega⟩

/-- Whether it returns or not, the loop ends in one of its states. -/
theorem ctor_loop_outcome (host : Host) (n : Nat) :
    ∀ (fuel j : Nat), j ≤ n → j ≤ UINT32_MOD →
      ∃ i, Result.state (ctor_loop host n fuel (j % UINT32_MOD) (ctor_state n j)) =
        ctor_state n i := by
  have hpos : 0 < UINT32_MOD := by unfold UINT32_MOD; omega
  intro fuel
  induction fuel with
  | zero => intro j _ _; exact ⟨j, by simp [ctor_loop, Result.state]⟩
  | succ f ih =>
    intro j hjn hjm
    by_cases hw : j = UINT32_MOD
    · refine ⟨j, ?_⟩
      rw [hw, Nat.mod_self, ctor_loop]
      have h0 : 0 < n := by omega
      simp only [h0, if_true, ctor_state_first n UINT32_MOD hpos, Thread.joinable]
      split <;> [rfl; (split <;> rfl)]
    · have hlt : j < UINT32_MOD := by omega
      rw [Nat.mod_eq_of_lt hlt]
      by_cases hj : j < n
      · by_cases ht : host.threads j = true
        · rw [ctor_pass host n f j hj ht]
          exact ih (j + 1) (by omega) (by omega)
        · rw [ctor_pass_refused host n f j hj (by simpa using ht)]
          exact ⟨j, rfl⟩
      · exact ⟨j, by rw [ctor_loop, if_neg hj]; rfl⟩

theorem ctor_state_full (n : Nat) :
    ctor_state n n =
      { terminate_ := false, m_ := false, pool_ := List.replicate n Thread.worker,
        queue_ := [], cnt_busy_ := to_int n,
        log := [Event.resize_pool n, Event.store_busy (to_int n)] ++
          (List.range n).map Event.spawn } := by
  simp [ctor_state, ctor_prologue, members_init]

/-- Below `2^32` threads, on a host that has the storage and starts every
thread, the constructor returns, after `num_threads` passes. -/
theorem ctor_returns (host : Host) (n fuel : Nat) (hn : n < UINT32_MOD)
    (hs : host.storage n = true) (ht : ∀ k, k < n → host.threads k = true) (hf : n < fuel) :
    threadPool.threadPool host n fuel = .ok (ctor_state n n) := by
  obtain ⟨f, rfl⟩ : ∃ f, fuel = (f + 1) + n := ⟨fuel - n - 1, by omega⟩
  have h := ctor_loop_iter host n (f + 1) n 0 (by omega) (by omega)
    (fun k _ hk => ht k (by omega))
  rw [Nat.zero_mod, ctor_state_zero, Nat.zero_add, Nat.mod_eq_of_lt hn] at h
  rw [threadPool.threadPool, if_pos hs, h, ctor_loop]
  simp

/-- When the host refuses the thread of pass `j`, the constructor ends there:
the exception leaves it, and the running threads in the vector make that
`std::terminate`. -/
theorem ctor_refused (host : Host) (n fuel j : Nat) (hjn : j < n) (hjm : j < UINT32_MOD)
    (hs : host.storage n = true) (ht : ∀ k, k < j → host.threads k = true)
    (hr : host.threads j = false) (hf : j < fuel) :
    threadPool.threadPool host n fuel =
      .error (if j = 0 then Fault.system_error else Fault.terminate, ctor_state n j) := by
  obtain ⟨f, rfl⟩ : ∃ f, fuel = (f + 1) + j := ⟨fuel - j - 1, by omega⟩
  have h := ctor_loop_iter host n (f + 1) j 0 (by omega) (by omega)
    (fun k _ hk => ht k (by omega))
  rw [Nat.zero_mod, ctor_state_zero, Nat.zero_add, Nat.mod_eq_of_lt hjm] at h
  rw [threadPool.threadPool, if_pos hs, h, ctor_pass_refused host n f j hjn hr]

/-- The constructor returns only below `2^32` threads and on a host that has
the storage and starts every thread, and then in the state after `num_threads`
passes. -/
theorem ctor_ok_inv (host : Host) (n fuel : Nat) (s : threadPool)
    (h : threadPool.threadPool host n fuel = .ok s) :
    n < UINT32_MOD ∧ n < fuel ∧ host.storage n = true ∧
      (∀ k, k < n → host.threads k = true) ∧ s = ctor_state n n := by
  rw [threadPool.threadPool] at h
  by_cases hs : host.storage n = true
  · rw [if_pos hs] at h
    have hi := ctor_loop_ok_inv host n fuel 0 s (by omega) (by omega)
    rw [Nat.zero_mod, ctor_state_zero] at hi
    obtain ⟨h1, h2, h3, h4⟩ := hi h
    exact ⟨h1, by omega, hs, fun k hk => h3 k (by omega) hk, h2⟩
  · rw [if_neg hs] at h
    cases h

/-- Whether it returns or not, the constructor ends with the flag `false`. -/
theorem ctor_outcome (host : Host) (n fuel : Nat) :
    (Result.state (threadPool.threadPool host n fuel)).terminate_ = false := by
  rw [threadPool.threadPool]
  by_cases hs : host.storage n = true
  · obtain ⟨i, hi⟩ := ctor_loop_outcome host n fuel 0 (by omega) (by omega)
    rw [Nat.zero_mod, ctor_state_zero] at hi
    rw [if_pos hs, hi]
    rfl
  · rw [if_neg hs]
    rfl

/-! ## The destructor -/

theorem join_all_spec :
    ∀ (todo done : List Thread) (s : threadPool), s.pool_ = done ++ todo →
      (∀ t ∈ todo, t.joinable = true) →
      threadPool.join_all todo done.length s =
        .ok { s with
              pool_ := done ++ List.replicate todo.length Thread.idle
              log := s.log ++ (List.range' done.length todo.length).map Event.join } := by
  intro todo
  induction todo with
  | nil => intro done s h _; simp [threadPool.join_all, ← h]
  | cons t todo ih =>
    intro done s h hj
    have ht : t.joinable = true := hj t (List.mem_cons_self _ _)
    rw [threadPool.join_all, if_pos ht]
    have hset : s.pool_.set done.length Thread.idle = (done ++ [Thread.idle]) ++ todo := by
      rw [h, List.set_append_right _ _ (by simp)]
      simp
    have := ih (done ++ [Thread.idle])
      { s with pool_ := s.pool_.set done.length Thread.idle,
               log := s.log ++ [Event.join done.length] }
      hset (fun u hu => hj u (List.mem_cons_of_mem _ hu))
    rw [List.length_append, List.length_singleton] at this
    rw [this]
    simp [List.replicate_succ, List.range'_succ]

theorem join_injective : Function.Injective Event.join := by
  intro a b h
  cases h
  rfl

/-- Among the entries the destructor adds to the log, each position of the
vector is joined once and no other position is joined. -/
theorem count_join_destroyed (s : threadPool) (i : Nat) :
    (new_events s (destroyed s)).count (Event.join i) = if i < s.pool_.length then 1 else 0 := by
  have hd : new_events s (destroyed s) =
      [Event.lock, Event.store_terminate true, Event.unlock, Event.notify_all] ++
        ((List.range s.pool_.length).map Event.join ++ [Event.clear_pool]) := by
    simp only [new_events, destroyed, List.append_assoc, List.drop_left]
  rw [hd, List.count_append, List.count_append,
    List.count_eq_zero_of_not_mem (l := [Event.lock, _, _, _]) (by simp),
    List.count_eq_zero_of_not_mem (l := [Event.clear_pool]) (by simp), Nat.zero_add, Nat.add_zero]
  split
  · exact List.count_eq_one_of_mem ((List.nodup_range _).map join_injective)
      (List.mem_map.mpr ⟨i, List.mem_range.mpr ‹_›, rfl⟩)
  · apply List.count_eq_zero_of_not_mem
    simp only [List.mem_map, List.mem_range, Event.join.injEq, not_exists, not_and]
    intro j hj hji
    omega

theorem destructor_returns (s : threadPool) (h : ready s) :
    threadPool.destructor s = .ok (destroyed s) := by
  obtain ⟨hm, hj⟩ := h
  have hja := join_all_spec s.pool_ []
    (notify_all (unlock (store_terminate true
      { s with m_ := true, log := s.log ++ [Event.lock] })))
    (by simp [notify_all, unlock, store_terminate]) hj
  simp only [List.length_nil] at hja
  simp only [threadPool.destructor, lock, hm, Bool.false_eq_true, if_false]
  have hp : (notify_all (unlock (store_terminate true
      { s with m_ := true, log := s.log ++ [Event.lock] }))).pool_ = s.pool_ := rfl
  rw [hp, hja]
  simp [threadPool.clear_pool, Thread.joinable, destroyed, notify_all, unlock, store_terminate,
    List.range_eq_range']

/-! ## `terminate_on_flag` -/

theorem spin_returns (stop : Nat → Bool) :
    ∀ (k j fuel : Nat) (s : threadPool), (∀ i, i < k → stop (j + i) = false) →
      stop (j + k) = true → k < fuel →
      threadPool.spin stop fuel j s =
        .ok { s with log := s.log ++ List.replicate k (Event.load_stop false) ++
                [Event.load_stop true] } := by
  intro k
  induction k with
  | zero =>
    intro j fuel s _ ht hf
    obtain ⟨f, rfl⟩ : ∃ f, fuel = f + 1 := ⟨fuel - 1, by omega⟩
    simp [threadPool.spin, show stop j = true from ht]
  | succ k ih =>
    intro j fuel s hfalse ht hf
    obtain ⟨f, rfl⟩ : ∃ f, fuel = f + 1 := ⟨fuel - 1, by omega⟩
    have h0 : stop j = false := hfalse 0 (by omega)
    rw [threadPool.spin]
    simp only [h0, Bool.false_eq_true, if_false]
    rw [ih (j + 1) f _ (fun i hi => by rw [Nat.add_assoc, Nat.add_comm 1 i]; exact hfalse (i + 1) (by omega))
      (by rw [Nat.add_assoc, Nat.add_comm 1 k]; exact ht) (by omega)]
    simp [List.replicate_succ]

theorem spin_spins (stop : Nat → Bool) :
    ∀ (fuel j : Nat) (s : threadPool), (∀ i, i < fuel → stop (j + i) = false) →
      threadPool.spin stop fuel j s =
        .error (Fault.out_of_fuel,
          { s with log := s.log ++ List.replicate fuel (Event.load_stop false) }) := by
  intro fuel
  induction fuel with
  | zero => intro j s _; simp [threadPool.spin]
  | succ f ih =>
    intro j s hfalse
    have h0 : stop j = false := hfalse 0 (by omega)
    rw [threadPool.spin]
    simp only [h0, Bool.false_eq_true, if_false]
    rw [ih (j + 1) _ (fun i hi => by rw [Nat.add_assoc, Nat.add_comm 1 i]; exact hfalse (i + 1) (by omega))]
    simp [List.replicate_succ]

theorem terminate_on_flag_returns (stop : Nat → Bool) (k fuel : Nat) (s : threadPool)
    (hm : s.m_ = false) (hfalse : ∀ i, i < k → stop i = false) (ht : stop k = true)
    (hf : k < fuel) :
    threadPool.terminate_on_flag stop fuel s = .ok (flagged k s) := by
  have h := spin_returns stop k 0 fuel s (by simpa using hfalse) (by simpa using ht) hf
  rw [threadPool.terminate_on_flag, h]
  cases s
  simp_all [lock, store_terminate, unlock, notify_all, flagged]

theorem terminate_on_flag_spins (stop : Nat → Bool) (fuel : Nat) (s : threadPool)
    (hfalse : ∀ i, i < fuel → stop i = false) :
    threadPool.terminate_on_flag stop fuel s =
      .error (Fault.out_of_fuel,
        { s with log := s.log ++ List.replicate fuel (Event.load_stop false) }) := by
  have h := spin_spins stop fuel 0 s (by simpa using hfalse)
  rw [threadPool.terminate_on_flag, h]

/-! ## What every operation leaves alone -/

theorem Frame.refl (s : threadPool) : Frame s s :=
  ⟨id, rfl, rfl, fun _ h => Or.inl h, [], by simp, by simp⟩

theorem Frame.trans {a b c : threadPool} (h1 : Frame a b) (h2 : Frame b c) : Frame a c := by
  obtain ⟨l1, e1, n1⟩ := h1.log
  obtain ⟨l2, e2, n2⟩ := h2.log
  refine ⟨fun h => h2.flag (h1.flag h), h2.busy.trans h1.busy, h2.queue.trans h1.queue, ?_,
    l1 ++ l2, by rw [e2, e1, List.append_assoc], by simp [n1, n2]⟩
  intro t ht
  rcases h2.pool t ht with h | h
  · exact h1.pool t h
  · exact Or.inr h

theorem spin_cases (stop : Nat → Bool) :
    ∀ (fuel k : Nat) (s : threadPool), ∃ l, Event.store_terminate false ∉ l ∧
      (threadPool.spin stop fuel k s = .ok { s with log := s.log ++ l } ∨
        threadPool.spin stop fuel k s = .error (Fault.out_of_fuel, { s with log := s.log ++ l })) := by
  intro fuel
  induction fuel with
  | zero => intro k s; exact ⟨[], by simp, Or.inr (by simp [threadPool.spin])⟩
  | succ f ih =>
    intro k s
    by_cases hk : stop k = true
    · exact ⟨[Event.load_stop true], by simp, Or.inl (by simp [threadPool.spin, hk])⟩
    · obtain ⟨l, hl, h⟩ := ih (k + 1) { s with log := s.log ++ [Event.load_stop false] }
      refine ⟨Event.load_stop false :: l, by simp [hl], ?_⟩
      rw [threadPool.spin, if_neg hk]
      simpa using h

theorem join_all_cases :
    ∀ (todo : List Thread) (i : Nat) (s : threadPool), ∃ p l,
      (∀ t ∈ p, t ∈ s.pool_ ∨ t = Thread.idle) ∧ Event.store_terminate false ∉ l ∧
      (threadPool.join_all todo i s = .ok { s with pool_ := p, log := s.log ++ l } ∨
        threadPool.join_all todo i s =
          .error (Fault.system_error, { s with pool_ := p, log := s.log ++ l })) := by
  intro todo
  induction todo with
  | nil =>
    intro i s
    exact ⟨s.pool_, [], fun _ h => Or.inl h, by simp, Or.inl (by simp [threadPool.join_all])⟩
  | cons t todo ih =>
    intro i s
    by_cases ht : t.joinable = true
    · obtain ⟨p, l, hp, hl, h⟩ := ih (i + 1)
        { s with pool_ := s.pool_.set i Thread.idle, log := s.log ++ [Event.join i] }
      refine ⟨p, Event.join i :: l, ?_, by simp [hl], ?_⟩
      · intro u hu
        rcases hp u hu with h1 | h1
        · rcases List.mem_or_eq_of_mem_set h1 with h2 | h2
          · exact Or.inl h2
          · exact Or.inr h2
        · exact Or.inr h1
      · rw [threadPool.join_all, if_pos ht]
        simpa using h
    · exact ⟨s.pool_, [], fun _ h => Or.inl h, by simp,
        Or.inr (by simp [threadPool.join_all, ht])⟩

theorem terminate_on_flag_frame (stop : Nat → Bool) (fuel : Nat) (s : threadPool) :
    Frame s (Result.state (threadPool.terminate_on_flag stop fuel s)) ∧
      (Result.state (threadPool.terminate_on_flag stop fuel s)).pool_ = s.pool_ := by
  obtain ⟨l, hl, h | h⟩ := spin_cases stop fuel 0 s
  · by_cases hm : s.m_ = true
    · have hr : threadPool.terminate_on_flag stop fuel s = .error (Fault.deadlock,
          { s with terminate_ := true, log := s.log ++ l ++ [Event.store_terminate true] }) := by
        rw [threadPool.terminate_on_flag, h]
        simp [lock, store_terminate, hm]
      rw [hr]
      exact ⟨⟨fun _ => rfl, rfl, rfl, fun _ h => Or.inl h,
        l ++ [Event.store_terminate true], by simp [Result.state], by simp [hl]⟩, rfl⟩
    · have hr : threadPool.terminate_on_flag stop fuel s = .ok
          { s with terminate_ := true, m_ := false, log := s.log ++ l ++
              [Event.store_terminate true, Event.lock, Event.notify_all, Event.unlock] } := by
        rw [threadPool.terminate_on_flag, h]
        simp [lock, store_terminate, hm, unlock, notify_all]
      rw [hr]
      exact ⟨⟨fun _ => rfl, rfl, rfl, fun _ h => Or.inl h,
        l ++ [Event.store_terminate true, Event.lock, Event.notify_all, Event.unlock],
        by simp [Result.state], by simp [hl]⟩, rfl⟩
  · rw [threadPool.terminate_on_flag, h]
    exact ⟨⟨fun h => h, rfl, rfl, fun _ h => Or.inl h, l, rfl, hl⟩, rfl⟩

theorem destructor_unfold (s : threadPool) (hm : s.m_ = false) :
    threadPool.destructor s =
      match threadPool.join_all s.pool_ 0 (signalled s) with
      | .error e => .error e
      | .ok s5 => threadPool.clear_pool s5 := by
  simp [threadPool.destructor, lock, hm, signalled, notify_all, unlock, store_terminate]

theorem destructor_frame (s : threadPool) :
    Frame s (Result.state (threadPool.destructor s)) := by
  by_cases hm : s.m_ = true
  · have hr : threadPool.destructor s = .error (Fault.deadlock, s) := by
      simp [threadPool.destructor, lock, hm]
    rw [hr]
    exact Frame.refl s
  · rw [destructor_unfold s (by simpa using hm)]
    obtain ⟨p, l, hp, hl, h | h⟩ := join_all_cases s.pool_ 0 (signalled s)
    · rw [h]
      simp only [threadPool.clear_pool]
      split
      · exact ⟨fun _ => rfl, rfl, rfl, hp,
          [Event.lock, Event.store_terminate true, Event.unlock, Event.notify_all] ++ l,
          by simp [Result.state, signalled], by simp [hl]⟩
      · exact ⟨fun _ => rfl, rfl, rfl, by simp [Result.state],
          [Event.lock, Event.store_terminate true, Event.unlock, Event.notify_all] ++ l ++
            [Event.clear_pool],
          by simp [Result.state, signalled], by simp [hl]⟩
    · rw [h]
      exact ⟨fun _ => rfl, rfl, rfl, hp,
        [Event.lock, Event.store_terminate true, Event.unlock, Event.notify_all] ++ l,
        by simp [Result.state, signalled], by simp [hl]⟩

theorem jobs_in_queue_cases (s : threadPool) :
    (s.m_ = true ∧ threadPool.jobs_in_queue s = .error (Fault.deadlock, s)) ∨
      (s.m_ = false ∧ threadPool.jobs_in_queue s =
        .ok (to_int s.queue_.length,
          { s with log := s.log ++ [Event.lock, Event.read_queue_size s.queue_.length,
              Event.unlock] })) := by
  cases s with
  | mk t m p q c l =>
    cases m <;> simp [threadPool.jobs_in_queue, lock, unlock]

theorem step_frame (op : Op) (s : threadPool) :
    Frame s (Result.state (step op s)) ∧
      (op ≠ Op.destructor → (Result.state (step op s)).pool_ = s.pool_) := by
  cases op with
  | terminate_on_flag stop fuel =>
    exact ⟨(terminate_on_flag_frame stop fuel s).1, fun _ => (terminate_on_flag_frame stop fuel s).2⟩
  | destructor => exact ⟨destructor_frame s, fun h => absurd rfl h⟩
  | jobs_in_queue =>
    rcases jobs_in_queue_cases s with ⟨_, h⟩ | ⟨_, h⟩
    · have hr : step Op.jobs_in_queue s = .error (Fault.deadlock, s) := by simp [step, h]
      rw [hr]
      exact ⟨Frame.refl s, fun _ => rfl⟩
    · have hr : step Op.jobs_in_queue s = .ok { s with log := s.log ++
          [Event.lock, Event.read_queue_size s.queue_.length, Event.unlock] } := by
        simp [step, h]
      rw [hr]
      exact ⟨⟨id, rfl, rfl, fun _ h => Or.inl h, _, rfl, by simp⟩, fun _ => rfl⟩
  | threads_busy =>
    exact ⟨⟨id, rfl, rfl, fun _ h => Or.inl h, [Event.load_busy s.cnt_busy_], rfl, by simp⟩,
      fun _ => rfl⟩

theorem run_frame : ∀ (ops : List Op) (s : threadPool), Frame s (Result.state (run ops s)) := by
  intro ops
  induction ops with
  | nil => intro s; exact Frame.refl s
  | cons op ops ih =>
    intro s
    have h := (step_frame op s).1
    rw [run]
    cases hs : step op s with
    | error e => rw [hs] at h; exact h
    | ok s1 => rw [hs] at h; exact Frame.trans h (ih s1)

theorem run_pool : ∀ (ops : List Op) (s : threadPool), (∀ op ∈ ops, op ≠ Op.destructor) →
    (Result.state (run ops s)).pool_ = s.pool_ := by
  intro ops
  induction ops with
  | nil => intro s _; rfl
  | cons op ops ih =>
    intro s hne
    have h := (step_frame op s).2 (hne op (List.mem_cons_self _ _))
    rw [run]
    cases hs : step op s with
    | error e => rw [hs] at h; exact h
    | ok s1 =>
      rw [hs] at h
      exact (ih s1 (fun o ho => hne o (List.mem_cons_of_mem _ ho))).trans h

theorem to_int_le (n : Nat) : to_int n ≤ (n : Int) := by
  unfold to_int UINT32_MOD INT_MAX
  split <;> omega

theorem to_int_small (n : Nat) (h : n ≤ INT_MAX) : to_int n = (n : Int) := by
  unfold to_int UINT32_MOD
  unfold INT_MAX at h ⊢
  have : n % 4294967296 = n := Nat.mod_eq_of_lt (by omega)
  rw [this, if_pos h]

/-! ## Sample states -/

theorem sample_fresh_ready : ready sample_fresh := by
  simp [ready, sample_fresh, Thread.joinable]

theorem sample_queued_ready : ready sample_queued := by
  simp [ready, sample_queued, sample_fresh, Thread.joinable]

theorem sample_fresh_constructed :
    threadPool.threadPool host_ample 2 3 = .ok sample_fresh := rfl

/-! ## The whole destructor call -/

theorem destructor_complete_returns (s : threadPool) (h : ready s) :
    threadPool.destructor_complete s =
      .ok { destroyed s with
            queue_ := []
            log := (destroyed s).log ++ [Event.destroy_queue, Event.destroy_pool] } := by
  rw [threadPool.destructor_complete, destructor_returns s h]
  simp [threadPool.destroy_members, destroyed]

/-! ## The busy counter -/

theorem wrap_pred (k : Nat) : wrap_int (to_int (k + 1) - 1) = to_int k := by
  unfold wrap_int to_int UINT32_MOD INT_MAX
  split <;> split <;> omega

theorem wrap_succ (k : Nat) : wrap_int (to_int k + 1) = to_int (k + 1) := by
  unfold wrap_int to_int UINT32_MOD INT_MAX
  split <;> split <;> omega

theorem countP_set (p : Phase → Bool) :
    ∀ (l : List Phase) (i : Nat) (a b : Phase), l[i]? = some a →
      (l.set i b).countP p + (if p a then 1 else 0) =
        l.countP p + (if p b then 1 else 0) := by
  intro l
  induction l with
  | nil => intro i a b h; simp at h
  | cons x l ih =>
    intro i a b h
    cases i with
    | zero =>
      simp only [List.getElem?_cons_zero, Option.some.injEq] at h
      subst h
      simp only [List.set_cons_zero, List.countP_cons]
      omega
    | succ i =>
      simp only [List.getElem?_cons_succ] at h
      have := ih i a b h
      simp only [List.set_cons_succ, List.countP_cons]
      omega

theorem starting_add_executing_le (l : List Phase) :
    l.countP (fun p => p = Phase.started) + l.countP (fun p => p = Phase.executing) ≤
      l.length := by
  induction l with
  | nil => simp
  | cons x l ih =>
    simp only [List.countP_cons, List.length_cons]
    cases x <;> simp <;> omega

theorem counted_fresh (host : Host) (n fuel : Nat) (s0 : threadPool)
    (h : threadPool.threadPool host n fuel = .ok s0) : Counted n (Running.fresh s0) := by
  rw [(ctor_ok_inv host n fuel s0 h).2.2.2.2, ctor_state_full]
  simp [Counted, Running.fresh, starting, executing, List.countP_replicate]

theorem wrap_pred_of (k j : Nat) (h : j + 1 = k) : wrap_int (to_int k - 1) = to_int j := by
  subst h
  exact wrap_pred j

theorem wrap_succ_of (k j : Nat) (h : k + 1 = j) : wrap_int (to_int k + 1) = to_int j := by
  subst h
  exact wrap_succ k

theorem counted_begin_wait (n i : Nat) (r q : Running) (hc : Counted n r)
    (h : begin_wait i r = some q) : Counted n q := by
  obtain ⟨hl, hb⟩ := hc
  unfold begin_wait at h
  split at h
  · next hi =>
    cases h
    have h1 := countP_set (fun p => p = Phase.started) r.workers i Phase.started Phase.waiting hi
    have h2 := countP_set (fun p => p = Phase.executing) r.workers i Phase.started
      Phase.waiting hi
    simp only [decide_True, decide_False, if_true, Bool.false_eq_true, if_false, reduceCtorEq]
      at h1 h2
    refine ⟨by simpa using hl, ?_⟩
    simp only [starting, executing] at hb ⊢
    rw [hb]
    exact wrap_pred_of _ _ (by omega)
  · next hi =>
    cases h
    have h1 := countP_set (fun p => p = Phase.started) r.workers i Phase.executing
      Phase.waiting hi
    have h2 := countP_set (fun p => p = Phase.executing) r.workers i Phase.executing
      Phase.waiting hi
    simp only [decide_True, decide_False, if_true, Bool.false_eq_true, if_false, reduceCtorEq]
      at h1 h2
    refine ⟨by simpa using hl, ?_⟩
    simp only [starting, executing] at hb ⊢
    rw [hb]
    exact wrap_pred_of _ _ (by omega)
  · cases h

theorem counted_begin_job (n i : Nat) (r q : Running) (hc : Counted n r)
    (h : begin_job i r = some q) : Counted n q := by
  obtain ⟨hl, hb⟩ := hc
  unfold begin_job at h
  split at h
  · next hi _ _ =>
    cases h
    have h1 := countP_set (fun p => p = Phase.started) r.workers i Phase.waiting
      Phase.executing hi
    have h2 := countP_set (fun p => p = Phase.executing) r.workers i Phase.waiting
      Phase.executing hi
    simp only [decide_True, decide_False, if_true, Bool.false_eq_true, if_false, reduceCtorEq]
      at h1 h2
    refine ⟨by simpa using hl, ?_⟩
    simp only [starting, executing] at hb ⊢
    rw [hb]
    exact wrap_succ_of _ _ (by omega)
  · cases h

theorem counted_worker_exit (n i : Nat) (r q : Running) (hc : Counted n r)
    (h : worker_exit i r = some q) : Counted n q := by
  obtain ⟨hl, hb⟩ := hc
  unfold worker_exit at h
  split at h
  · next hi _ _ =>
    cases h
    have h1 := countP_set (fun p => p = Phase.started) r.workers i Phase.waiting
      Phase.exited hi
    have h2 := countP_set (fun p => p = Phase.executing) r.workers i Phase.waiting
      Phase.exited hi
    simp only [decide_True, decide_False, if_true, Bool.false_eq_true, if_false, reduceCtorEq]
      at h1 h2
    refine ⟨by simpa using hl, ?_⟩
    simp only [starting, executing] at hb ⊢
    rw [hb]
    congr 1
    omega
  · cases h

theorem add_job_busy (job : Job) (s p : threadPool) (h : threadPool.add_job job s = .ok p) :
    p.cnt_busy_ = s.cnt_busy_ := by
  unfold threadPool.add_job lock at h
  split at h
  · cases h
  · next s1 hs =>
    split at hs
    · cases hs
    · cases hs
      cases h
      rfl

theorem counted_act (n : Nat) (a : Action) (r q : Running) (hc : Counted n r)
    (h : act a r = some q) : Counted n q := by
  cases a with
  | call op =>
    have hf := (step_frame op r.pool).1.busy
    simp only [act] at h
    split at h
    · cases h
    · next p hp =>
      cases h
      rw [hp] at hf
      exact ⟨hc.1, hf.trans hc.2⟩
  | add_job job =>
    simp only [act] at h
    split at h
    · cases h
    · next p hp =>
      cases h
      exact ⟨hc.1, (add_job_busy job r.pool p hp).trans hc.2⟩
  | begin_wait i => exact counted_begin_wait n i r q hc h
  | begin_job i => exact counted_begin_job n i r q hc h
  | worker_exit i => exact counted_worker_exit n i r q hc h

theorem counted_perform (n : Nat) :
    ∀ (acts : List Action) (r q : Running), Counted n r → perform acts r = some q →
      Counted n q := by
  intro acts
  induction acts with
  | nil => intro r q hc h; cases h; exact hc
  | cons a rest ih =>
    intro r q hc h
    rw [perform] at h
    split at h
    · cases h
    · next r1 h1 => exact ih r1 q (counted_act n a r r1 hc h1) h

/-- In every state reached from the constructed pool the counter is the
converted number of workers that are in a job or have not yet waited, and that
number is at most the thread count. -/
theorem counted_reached (host : Host) (n fuel : Nat) (s0 : threadPool)
    (h : threadPool.threadPool host n fuel = .ok s0) (acts : List Action) (r : Running)
    (hr : perform acts (Running.fresh s0) = some r) :
    r.pool.cnt_busy_ = to_int (starting r + executing r) ∧ starting r + executing r ≤ n := by
  have hc := counted_perform n acts _ r (counted_fresh host n fuel s0 h) hr
  refine ⟨hc.2, ?_⟩
  have := starting_add_executing_le r.workers
  rw [hc.1] at this
  exact this

theorem sample_actions_reach :
    perform sample_actions (Running.fresh sample_fresh) = some sample_reached := by
  decide

theorem spawn_injective : Function.Injective Event.spawn := by
  intro a b h
  cases h
  rfl

/-- In the log of the constructor each slot below `n` is spawned once and no
other slot is. -/
theorem count_spawn (n i : Nat) :
    ([Event.resize_pool n, Event.store_busy (to_int n)] ++
      (List.range n).map Event.spawn).count (Event.spawn i) = if i < n then 1 else 0 := by
  rw [List.count_append,
    List.count_eq_zero_of_not_mem (l := [Event.resize_pool n, _]) (by simp), Nat.zero_add]
  split
  · exact List.count_eq_one_of_mem ((List.nodup_range _).map spawn_injective)
      (List.mem_map.mpr ⟨i, List.mem_range.mpr ‹_›, rfl⟩)
  · apply List.count_eq_zero_of_not_mem
    simp only [List.mem_map, List.mem_range, Event.spawn.injEq, not_exists, not_and]
    intro j hj hji
    omega

end ThreadPool

/-! ## The claims -/

/-- C1. Graceful shutdown: on a pool of `N` running workers whose mutex the
caller does not own, the destructor returns, and its actions are, in this order:
lock, store `true` to the termination flag, unlock, notify all, one join for
each of the positions `0 .. N-1` of the vector, clear the vector; each of the
`N` positions is joined exactly once and nothing else is joined.  In the state
the destructor returns in the flag is `true` and the vector is empty. -/
theorem destructor_graceful_shutdown (s : threadPool) (h : ready s) :
    ∃ r, threadPool.destructor s = .ok r ∧
      new_events s r =
        [Event.lock, Event.store_terminate true, Event.unlock, Event.notify_all] ++
          (List.range s.pool_.length).map Event.join ++ [Event.clear_pool] ∧
      (∀ i, (new_events s r).count (Event.join i) = if i < s.pool_.length then 1 else 0) ∧
      r.terminate_ = true ∧ r.pool_ = [] := by
  refine ⟨destroyed s, destructor_returns s h, ?_, count_join_destroyed s, rfl, rfl⟩
  simp only [new_events, destroyed, List.append_assoc, List.drop_left]

theorem destructor_graceful_shutdown_witness :
    ready sample_fresh ∧ ∃ r, threadPool.destructor sample_fresh = .ok r ∧
      new_events sample_fresh r =
        [Event.lock, Event.store_terminate true, Event.unlock, Event.notify_all] ++
          (List.range sample_fresh.pool_.length).map Event.join ++ [Event.clear_pool] ∧
      (∀ i, (new_events sample_fresh r).count (Event.join i) =
        if i < sample_fresh.pool_.length then 1 else 0) ∧
      r.terminate_ = true ∧ r.pool_ = [] :=
  ⟨sample_fresh_ready, destructor_graceful_shutdown sample_fresh sample_fresh_ready⟩

/-- C2. Flag-triggered termination: let the external flag read `false` at its
first `k` loads.  With fuel for at most `k` loads the call is still spinning,
in a state that differs from the initial one only by the `k` loads in the log:
nothing is stored to the termination flag and nobody is notified.  If the load
after them reads `true` (`k = 0`: at once) the call returns; it has stored
`true` to the termination flag and notified all waiters, and the vector of
workers, the queue and the busy counter are those of the initial state. -/
theorem terminate_on_flag_effect (stop : Nat → Bool) (k : Nat) (s : threadPool)
    (hm : s.m_ = false) (hfalse : ∀ i, i < k → stop i = false) :
    (∀ fuel, fuel ≤ k →
      threadPool.terminate_on_flag stop fuel s =
        .error (Fault.out_of_fuel,
          { s with log := s.log ++ List.replicate fuel (Event.load_stop false) })) ∧
    (stop k = true → ∀ fuel, k < fuel →
      threadPool.terminate_on_flag stop fuel s =
        .ok { terminate_ := true, m_ := false, pool_ := s.pool_, queue_ := s.queue_,
              cnt_busy_ := s.cnt_busy_,
              log := s.log ++ List.replicate k (Event.load_stop false) ++
                [Event.load_stop true, Event.store_terminate true, Event.lock,
                  Event.notify_all, Event.unlock] }) := by
  refine ⟨fun fuel hf => terminate_on_flag_spins stop fuel s (fun i hi => hfalse i (by omega)),
    fun ht fuel hf => ?_⟩
  rw [terminate_on_flag_returns stop k fuel s hm hfalse ht hf, flagged, ← hm]

theorem terminate_on_flag_effect_witness :
    threadPool.terminate_on_flag sample_stop 2 sample_queued =
        .error (Fault.out_of_fuel,
          { sample_queued with
            log := sample_queued.log ++ List.replicate 2 (Event.load_stop false) }) ∧
      threadPool.terminate_on_flag sample_stop 3 sample_queued =
        .ok { terminate_ := true, m_ := false, pool_ := sample_queued.pool_,
              queue_ := sample_queued.queue_, cnt_busy_ := sample_queued.cnt_busy_,
              log := sample_queued.log ++ List.replicate 2 (Event.load_stop false) ++
                [Event.load_stop true, Event.store_terminate true, Event.lock,
                  Event.notify_all, Event.unlock] } :=
  have h := terminate_on_flag_effect sample_stop 2 sample_queued rfl
    (fun i hi => by simp only [sample_stop, decide_eq_false_iff_not]; omega)
  ⟨h.1 2 (Nat.le_refl 2), h.2 rfl 3 (by omega)⟩

/-- C3. Termination flag monotonicity: the flag is `false` in the state the
constructor ends in, for every thread count and host; along every sequence of `terminate_on_flag`, destructor,
`jobs_in_queue` and `threads_busy` calls (whether they return or not) a flag
that is `true` is `true` in the state reached; none of these calls ever stores
`false` to the flag; and storing `true` to a flag that is `true` leaves it
`true`. -/
theorem terminate_flag_monotone :
    (∀ host n fuel, (Result.state (threadPool.threadPool host n fuel)).terminate_ = false) ∧
    (∀ ops s, s.terminate_ = true → (Result.state (run ops s)).terminate_ = true) ∧
    (∀ ops s, ∃ l, (Result.state (run ops s)).log = s.log ++ l ∧
      Event.store_terminate false ∉ l) ∧
    (∀ s, s.terminate_ = true → (store_terminate true s).terminate_ = true) := by
  exact ⟨ctor_outcome, fun ops s h => (run_frame ops s).flag h,
    fun ops s => (run_frame ops s).log, fun _ _ => rfl⟩

theorem terminate_flag_monotone_witness :
    (Result.state (threadPool.threadPool host_ample 2 3)).terminate_ = false ∧
    (Result.state (run [Op.destructor, Op.jobs_in_queue]
      (store_terminate true sample_fresh))).terminate_ = true ∧
    (store_terminate true (store_terminate true sample_fresh)).terminate_ = true :=
  ⟨terminate_flag_monotone.1 host_ample 2 3,
    terminate_flag_monotone.2.1 [Op.destructor, Op.jobs_in_queue]
      (store_terminate true sample_fresh) rfl,
    terminate_flag_monotone.2.2.2 (store_terminate true sample_fresh) rfl⟩

/-- C4, counterexample. With `2^31` threads (one more than `INT_MAX`) the
counter is `-2^31` before the first worker is started and in the state the
constructor returns in, and that is what `threads_busy` reads. -/
theorem busy_init_wraps :
    (ctor_prologue 2147483648).cnt_busy_ = -2147483648 ∧
    ∃ s, threadPool.threadPool host_ample 2147483648 2147483649 = .ok s ∧
      (threadPool.threads_busy s).1 = -2147483648 ∧
      (threadPool.threads_busy s).1 ≠ ((2147483648 : Nat) : Int) := by
  have hc : to_int 2147483648 = -2147483648 := by
    unfold to_int UINT32_MOD INT_MAX
    norm_num
  have hb : ∀ n j, (threadPool.threads_busy (ctor_state n j)).1 = to_int n := fun _ _ => rfl
  have hp : ∀ n, (ctor_prologue n).cnt_busy_ = to_int n := fun _ => rfl
  refine ⟨(hp _).trans hc, ctor_state 2147483648 2147483648,
    ctor_returns host_ample _ _ (by unfold UINT32_MOD; omega) rfl (fun _ _ => rfl) (by omega),
    (hb _ _).trans hc, ?_⟩
  rw [hb, hc]
  omega

/-- C4, amended. Initial busy count: the constructor stores `(int)num_threads`
in the counter while the vector holds no running thread yet.  For every
`num_threads` up to `INT_MAX` that value is `num_threads`: on a host that has
the storage and starts the threads the constructor returns, its actions are the
resize, the store of `num_threads` to the counter, then the spawns, and
`threads_busy` on the state it returns in reads `num_threads`. -/
theorem busy_init (host : Host) (n fuel : Nat) (hn : n ≤ INT_MAX)
    (hs : host.storage n = true) (ht : ∀ k, k < n → host.threads k = true) (hf : n < fuel) :
    (ctor_prologue n).cnt_busy_ = to_int n ∧ to_int n = (n : Int) ∧
    (∀ t ∈ (ctor_prologue n).pool_, t = Thread.idle) ∧
    ∃ s, threadPool.threadPool host n fuel = .ok s ∧
      s.log = [Event.resize_pool n, Event.store_busy (n : Int)] ++
        (List.range n).map Event.spawn ∧
      (threadPool.threads_busy s).1 = (n : Int) := by
  have hlt : n < UINT32_MOD := by
    unfold INT_MAX at hn
    unfold UINT32_MOD
    omega
  have hc := to_int_small n hn
  refine ⟨rfl, hc, fun t ht => List.eq_of_mem_replicate ht, ctor_state n n,
    ctor_returns host n fuel hlt hs ht hf, ?_, ?_⟩
  · rw [ctor_state_full, hc]
  · rw [ctor_state_full]; exact hc

theorem busy_init_witness :
    (ctor_prologue 2).cnt_busy_ = to_int 2 ∧ to_int 2 = ((2 : Nat) : Int) ∧
    (∀ t ∈ (ctor_prologue 2).pool_, t = Thread.idle) ∧
    ∃ s, threadPool.threadPool host_ample 2 3 = .ok s ∧
      s.log = [Event.resize_pool 2, Event.store_busy ((2 : Nat) : Int)] ++
        (List.range 2).map Event.spawn ∧
      (threadPool.threads_busy s).1 = ((2 : Nat) : Int) :=
  busy_init host_ample 2 3 (by decide) rfl (fun _ _ => rfl) (by omega)

/-- C5, counterexample. The constructor does not start `num_threads` workers
for every `num_threads`.  On a host that keeps one thread running,
`threadPool(2)` never returns: the second thread is refused, the exception
leaves the constructor and the running thread in the vector makes that
`std::terminate`.  On a host that keeps 32768 threads running,
`threadPool(4294967296)` never returns either: it ends the same way with 32768
workers started. -/
theorem ctor_thread_refused :
    (¬ ∃ fuel s, threadPool.threadPool (host_limit 1) 2 fuel = .ok s) ∧
    threadPool.threadPool (host_limit 1) 2 3 =
      .error (Fault.terminate,
        { terminate_ := false, m_ := false, pool_ := [Thread.worker, Thread.idle], queue_ := [],
          cnt_busy_ := 2,
          log := [Event.resize_pool 2, Event.store_busy 2, Event.spawn 0] }) ∧
    (¬ ∃ fuel s, threadPool.threadPool (host_limit 32768) 4294967296 fuel = .ok s) ∧
    ∃ s, threadPool.threadPool (host_limit 32768) 4294967296 32769 =
        .error (Fault.terminate, s) ∧
      s.pool_.countP Thread.joinable = 32768 := by
  refine ⟨?_, rfl, ?_, ctor_state 4294967296 32768, ?_, ctor_state_live _ _⟩
  · rintro ⟨fuel, s, h⟩
    have := (ctor_ok_inv _ _ _ _ h).2.2.2.1 1 (by omega)
    simp [host_limit] at this
  · rintro ⟨fuel, s, h⟩
    have := (ctor_ok_inv _ _ _ _ h).1
    unfold UINT32_MOD at this
    omega
  · have h := ctor_refused (host_limit 32768) 4294967296 32769 32768 (by omega)
      (by unfold UINT32_MOD; omega) rfl
      (fun k hk => by simp only [host_limit, decide_eq_true_eq]; exact hk)
      (by simp [host_limit]) (by omega)
    rw [h]
    rfl

/-- C5, amended. Fixed pool size: for every `num_threads` below `2^32` (zero
included), on a host that has the storage for the vector and starts every
thread it is asked for, the constructor's loop terminates and the constructor
returns; it has started exactly `num_threads` workers, its actions after the
resize and the store to the counter being one spawn for each of the slots
`0 .. num_threads - 1`, each slot exactly once and no other slot; and a
sequence of `terminate_on_flag`, `jobs_in_queue` and `threads_busy` calls,
returning or not, leaves the vector of workers as it is. -/
theorem ctor_fixed_size (host : Host) (n fuel : Nat) (hn : n < UINT32_MOD)
    (hs : host.storage n = true) (ht : ∀ k, k < n → host.threads k = true) (hf : n < fuel) :
    ∃ s, threadPool.threadPool host n fuel = .ok s ∧
      s.pool_ = List.replicate n Thread.worker ∧
      s.log = [Event.resize_pool n, Event.store_busy (to_int n)] ++
        (List.range n).map Event.spawn ∧
      (∀ i, s.log.count (Event.spawn i) = if i < n then 1 else 0) ∧
      ∀ ops, (∀ op ∈ ops, op ≠ Op.destructor) →
        (Result.state (run ops s)).pool_ = s.pool_ := by
  refine ⟨ctor_state n n, ctor_returns host n fuel hn hs ht hf, ?_, ?_, fun i => ?_,
    fun ops h => run_pool ops _ h⟩
  · rw [ctor_state_full]
  · rw [ctor_state_full]
  · rw [ctor_state_full]
    exact count_spawn n i

theorem ctor_fixed_size_witness :
    (∃ s, threadPool.threadPool host_ample 0 1 = .ok s ∧
      s.pool_ = List.replicate 0 Thread.worker ∧
      s.log = [Event.resize_pool 0, Event.store_busy (to_int 0)] ++
        (List.range 0).map Event.spawn ∧
      (∀ i, s.log.count (Event.spawn i) = if i < 0 then 1 else 0) ∧
      ∀ ops, (∀ op ∈ ops, op ≠ Op.destructor) →
        (Result.state (run ops s)).pool_ = s.pool_) ∧
    ∃ s, threadPool.threadPool (host_limit 2) 2 3 = .ok s ∧
      s.pool_ = List.replicate 2 Thread.worker ∧
      s.log = [Event.resize_pool 2, Event.store_busy (to_int 2)] ++
        (List.range 2).map Event.spawn ∧
      (∀ i, s.log.count (Event.spawn i) = if i < 2 then 1 else 0) ∧
      ∀ ops, (∀ op ∈ ops, op ≠ Op.destructor) →
        (Result.state (run ops s)).pool_ = s.pool_ :=
  ⟨ctor_fixed_size host_ample 0 1 (by unfold UINT32_MOD; omega) rfl (fun _ _ => rfl) (by omega),
    ctor_fixed_size (host_limit 2) 2 3 (by unfold UINT32_MOD; omega) rfl
      (fun k hk => by simp only [host_limit, decide_eq_true_eq]; exact hk) (by omega)⟩

/-- C6. Busy count bound: in every state reached from the state the constructor
returns in, for thread count `N`, by a sequence of calls of the owner
(`terminate_on_flag`, destructor, `jobs_in_queue`, `threads_busy`, `add_job`)
and of steps of the workers (begin to wait, take a job, exit), `threads_busy`
reads at most `N`; and `threads_busy` returns the counter and leaves every data
member as it is. -/
theorem threads_busy_bounded (host : Host) (n fuel : Nat) (s0 : threadPool)
    (h : threadPool.threadPool host n fuel = .ok s0) (acts : List Action) (r : Running)
    (hr : perform acts (Running.fresh s0) = some r) :
    (threadPool.threads_busy r.pool).1 ≤ (n : Int) ∧
    ∀ s, (threadPool.threads_busy s).1 = s.cnt_busy_ ∧
      same_members s (threadPool.threads_busy s).2 := by
  refine ⟨?_, fun s => ⟨rfl, rfl, rfl, rfl, rfl, rfl⟩⟩
  obtain ⟨hc, hle⟩ := counted_reached host n fuel s0 h acts r hr
  show r.pool.cnt_busy_ ≤ _
  rw [hc]
  have := to_int_le (starting r + executing r)
  omega

theorem threads_busy_bounded_witness :
    perform sample_actions (Running.fresh sample_fresh) = some sample_reached ∧
    (threadPool.threads_busy sample_reached.pool).1 ≤ ((2 : Nat) : Int) :=
  ⟨sample_actions_reach,
    (threads_busy_bounded host_ample 2 3 sample_fresh sample_fresh_constructed sample_actions
      sample_reached sample_actions_reach).1⟩

/-- C7, counterexample. With `2^31` jobs in the queue `jobs_in_queue` returns
`-2^31`. -/
theorem jobs_in_queue_wraps :
    sample_overfull.queue_.length = 2147483648 ∧
    ∃ r, threadPool.jobs_in_queue sample_overfull = .ok (-2147483648, r) := by
  have hlen : sample_overfull.queue_.length = 2147483648 := by
    show (List.replicate 2147483648 7).length = 2147483648
    rw [List.length_replicate]
  have hc : to_int 2147483648 = -2147483648 := by
    unfold to_int UINT32_MOD INT_MAX
    norm_num
  refine ⟨hlen, ?_⟩
  rcases jobs_in_queue_cases sample_overfull with ⟨hm, _⟩ | ⟨_, h⟩
  · cases hm
  · rw [hlen, hc] at h
    exact ⟨_, h⟩

/-- C7, amended. Queue length query: called by a thread that does not own the
mutex, `jobs_in_queue` returns; its actions are lock, read the size of the
queue, unlock; the state it returns in differs from the initial one by these
log entries only (the mutex is released; queue, termination flag, busy counter
and vector of workers are unchanged); and the value returned is the number of
queued jobs converted to `int`, which is that number whenever it is at most
`INT_MAX`. -/
theorem jobs_in_queue_snapshot (s : threadPool) (hm : s.m_ = false) :
    threadPool.jobs_in_queue s =
        .ok (to_int s.queue_.length,
          { terminate_ := s.terminate_, m_ := false, pool_ := s.pool_, queue_ := s.queue_,
            cnt_busy_ := s.cnt_busy_,
            log := s.log ++ [Event.lock, Event.read_queue_size s.queue_.length,
              Event.unlock] }) ∧
      (s.queue_.length ≤ INT_MAX → to_int s.queue_.length = (s.queue_.length : Int)) := by
  refine ⟨?_, to_int_small _⟩
  rcases jobs_in_queue_cases s with ⟨h1, _⟩ | ⟨_, h⟩
  · rw [hm] at h1; cases h1
  · rw [h, ← hm]

theorem jobs_in_queue_snapshot_witness :
    threadPool.jobs_in_queue sample_queued =
        .ok (to_int sample_queued.queue_.length,
          { terminate_ := sample_queued.terminate_, m_ := false, pool_ := sample_queued.pool_,
            queue_ := sample_queued.queue_, cnt_busy_ := sample_queued.cnt_busy_,
            log := sample_queued.log ++
              [Event.lock, Event.read_queue_size sample_queued.queue_.length, Event.unlock] }) ∧
      (sample_queued.queue_.length ≤ INT_MAX →
        to_int sample_queued.queue_.length = (sample_queued.queue_.length : Int)) :=
  jobs_in_queue_snapshot sample_queued rfl

/-- C8, at the failing input. `terminate_on_flag` with a flag that is already
`true`, on a fresh pool of two workers: the actions are load, store `true` to
the termination flag, lock, notify all, unlock; the store is not made under the
lock, and the sequence after the load is not the signal step of the destructor,
which is lock, store, unlock, notify all, with the store under the lock. -/
theorem terminate_on_flag_stores_unlocked :
    new_events sample_fresh
        (Result.state (threadPool.terminate_on_flag (fun _ => true) 1 sample_fresh)) =
      [Event.load_stop true, Event.store_terminate true, Event.lock, Event.notify_all,
        Event.unlock] ∧
    stores_locked false (new_events sample_fresh
        (Result.state (threadPool.terminate_on_flag (fun _ => true) 1 sample_fresh))) = false ∧
    new_events sample_fresh (Result.state (threadPool.destructor sample_fresh)) =
      [Event.lock, Event.store_terminate true, Event.unlock, Event.notify_all,
        Event.join 0, Event.join 1, Event.clear_pool] ∧
    stores_locked false (new_events sample_fresh
        (Result.state (threadPool.destructor sample_fresh))) = true := by
  decide

/-- C9. Teardown clears the queue: on a pool of running workers whose mutex the
caller does not own, whatever its queue holds, the destructor call (its body,
then the destruction of the data members) completes; every position of the
vector of workers has been joined, exactly once, the vector is empty and the
job queue is empty. -/
theorem teardown_clears_queue (s : threadPool) (h : ready s) :
    ∃ r, threadPool.destructor_complete s = .ok r ∧
      (∀ i, (new_events s r).count (Event.join i) = if i < s.pool_.length then 1 else 0) ∧
      r.pool_ = [] ∧ r.queue_ = [] := by
  refine ⟨_, destructor_complete_returns s h, fun i => ?_, rfl, rfl⟩
  rw [← count_join_destroyed s i]
  have hd : new_events s { destroyed s with
      queue_ := []
      log := (destroyed s).log ++ [Event.destroy_queue, Event.destroy_pool] } =
      new_events s (destroyed s) ++ [Event.destroy_queue, Event.destroy_pool] := by
    simp only [new_events, destroyed, List.append_assoc, List.drop_left]
  rw [hd, List.count_append,
    List.count_eq_zero_of_not_mem (l := [Event.destroy_queue, Event.destroy_pool]) (by simp)]
  rfl

theorem teardown_clears_queue_witness :
    sample_queued.queue_ = [7, 8] ∧
    ∃ r, threadPool.destructor_complete sample_queued = .ok r ∧
      (∀ i, (new_events sample_queued r).count (Event.join i) =
        if i < sample_queued.pool_.length then 1 else 0) ∧
      r.pool_ = [] ∧ r.queue_ = [] :=
  ⟨rfl, teardown_clears_queue sample_queued sample_queued_ready⟩

/-- C10, counterexample. On the pool that `threadPool(1)` returns, to which no
job was ever submitted, no worker is executing a job and `threads_busy` reads
`1`, not `0`. -/
theorem busy_counts_idle_worker :
    ∃ s, threadPool.threadPool host_ample 1 2 = .ok s ∧ s.queue_ = [] ∧
      executing (Running.fresh s) = 0 ∧ (threadPool.threads_busy s).1 = 1 ∧
      (threadPool.threads_busy s).1 ≠ (executing (Running.fresh s) : Int) :=
  ⟨_, rfl, rfl, rfl, rfl, by decide⟩

/-- C10, amended. Meaning of the busy counter: in every state reached from the
constructed pool by calls of the owner and steps of the workers, the counter
that `threads_busy` reads is the number of workers executing a job plus the
number of workers that have not yet begun to wait for the first time,
converted to `int`; for a thread count `N` up to `INT_MAX` it is that number
itself, so it is the number of workers executing a job as soon as every worker
has begun to wait once.  On the freshly constructed pool no worker is executing
a job, all `N` have yet to wait, and the counter is `N`. -/
theorem busy_counter_meaning (host : Host) (n fuel : Nat) (s0 : threadPool)
    (h : threadPool.threadPool host n fuel = .ok s0) (acts : List Action) (r : Running)
    (hr : perform acts (Running.fresh s0) = some r) :
    (threadPool.threads_busy r.pool).1 = to_int (executing r + starting r) ∧
    (n ≤ INT_MAX →
      (threadPool.threads_busy r.pool).1 = ((executing r + starting r : Nat) : Int)) ∧
    (n ≤ INT_MAX → starting r = 0 →
      (threadPool.threads_busy r.pool).1 = (executing r : Int)) ∧
    executing (Running.fresh s0) = 0 ∧ starting (Running.fresh s0) = n ∧
    (n ≤ INT_MAX → (threadPool.threads_busy s0).1 = (n : Int)) := by
  obtain ⟨hc, hle⟩ := counted_reached host n fuel s0 h acts r hr
  obtain ⟨hc0, _⟩ := counted_reached host n fuel s0 h [] (Running.fresh s0) rfl
  have hs0 := (ctor_ok_inv host n fuel s0 h).2.2.2.2
  have hfresh : executing (Running.fresh s0) = 0 ∧ starting (Running.fresh s0) = n := by
    rw [hs0, ctor_state_full]
    simp [Running.fresh, starting, executing, List.countP_replicate]
  have hcomm : executing r + starting r = starting r + executing r := Nat.add_comm _ _
  refine ⟨?_, fun hn => ?_, fun hn hz => ?_, hfresh.1, hfresh.2, fun hn => ?_⟩
  · show r.pool.cnt_busy_ = _
    rw [hc, hcomm]
  · show r.pool.cnt_busy_ = _
    rw [hc, hcomm]
    exact to_int_small _ (by omega)
  · show r.pool.cnt_busy_ = _
    rw [hc, hz, Nat.zero_add]
    exact to_int_small _ (by omega)
  · show s0.cnt_busy_ = _
    rw [hs0, ctor_state_full]
    exact to_int_small n hn

theorem busy_counter_meaning_witness :
    perform sample_actions (Running.fresh sample_fresh) = some sample_reached ∧
    (threadPool.threads_busy sample_reached.pool).1 =
      to_int (executing sample_reached + starting sample_reached) ∧
    (2 ≤ INT_MAX →
      (threadPool.threads_busy sample_reached.pool).1 =
        ((executing sample_reached + starting sample_reached : Nat) : Int)) ∧
    (2 ≤ INT_MAX → starting sample_reached = 0 →
      (threadPool.threads_busy sample_reached.pool).1 = (executing sample_reached : Int)) ∧
    executing (Running.fresh sample_fresh) = 0 ∧ starting (Running.fresh sample_fresh) = 2 ∧
    (2 ≤ INT_MAX → (threadPool.threads_busy sample_fresh).1 = ((2 : Nat) : Int)) :=
  ⟨sample_actions_reach,
    busy_counter_meaning host_ample 2 3 sample_fresh sample_fresh_constructed sample_actions
      sample_reached sample_actions_reach⟩
